import Mathlib

/-!
Shallow embedding of the path-animator core of `farcaster-grid`
(`src/components/GridCanvas.tsx`, with `src/components/PachinkoCanvas.tsx` an
almost identical copy differing only in `numBalls` and the tick delay).

Conventions of the embedding:
* JavaScript numbers are modelled by `ℚ`.  Every quantity the claims touch is
  either an integer, a dyadic rational, or compared with wide margins, so the
  rational model is exact for them.
* A color string `"#rrggbb"` (valid 6-digit lowercase hex) is modelled by its
  numeric value below `2^24`; `parseInt(hex.slice(1), 16)` and the lowercase
  re-rendering `rgbToHex` are mutually inverse on that set, so string equality
  coincides with numeric equality.
* `Math.random()` draws are modelled by explicit inputs: a rational in `[0,1)`
  where the value matters (`startXFrom`), and a `Bool` where the code only
  tests `Math.random() < 0.5` (`dirVal`).
* A JavaScript out-of-range array read yields `undefined`, and every use of
  such a value here (`hex.slice` on `undefined`) throws; the embedding returns
  `none` in exactly those situations (`jsIndex`, `interpolateColor`).
-/

namespace FarcasterGrid

/-! ### Configured constants (GridCanvas.tsx lines 69–76) -/

def numRows : ℕ := 40

def numBalls : ℕ := 100

def stepSize : ℚ := 30

def totalCols : ℚ := 40

def visibleCols : ℚ := 30

def canvasWidth : ℚ := 900

def canvasHeight : ℚ := 1200

/-- GridCanvas.tsx line 76: `startColRange = [-totalCols / 2, totalCols / 2]`. -/
def startColRange : ℚ × ℚ := (-(totalCols / 2), totalCols / 2)

/-! ### Color gradients (GridCanvas.tsx lines 10–14), as 24-bit values -/

def neonColors : List ℕ := [0x00ffe5, 0xff00ff, 0xffff00, 0x00ff00]

def sunsetColors : List ℕ := [0xff7e5f, 0xfeb47b, 0xff6e7f, 0xbfe9ff]

def cyberpunkColors : List ℕ := [0xff00c8, 0x00f0ff, 0xfaff00, 0xff6f00]

/-! ### interpolateColor (GridCanvas.tsx lines 24–46) -/

/-- JavaScript `Math.round`: round half towards positive infinity. -/
def jsRound (x : ℚ) : ℤ := ⌊x + 1 / 2⌋

/-- GridCanvas.tsx lines 30–33: split a 24-bit color value into channels,
`[(bigint >> 16) & 255, (bigint >> 8) & 255, bigint & 255]`. -/
def hexToRgb (v : ℕ) : ℕ × ℕ × ℕ :=
  (v / 2 ^ 16 % 256, v / 2 ^ 8 % 256, v % 256)

/-- GridCanvas.tsx lines 35–36: reassemble two-hex-digit channels into the
color value the produced string denotes (channels are < 256 wherever this is
used, so the concatenation of `padStart(2,"0")` renderings is exactly this). -/
def rgbToHex (r g b : ℕ) : ℕ :=
  r * 2 ^ 16 + g * 2 ^ 8 + b

/-- JavaScript array read `g[i]` followed by use of the element: an index
outside the array produces `undefined` and the subsequent `hexToRgb` call
throws, modelled as `none`. -/
def jsIndex (g : List ℕ) (i : ℤ) : Option ℕ :=
  if 0 ≤ i then g[i.toNat]? else none

/-- GridCanvas.tsx lines 24–46, `interpolateColor(gradient, ratio)`:
`n = gradient.length - 1`, `scaled = ratio * n`, `i = Math.floor(scaled)`,
`t = scaled - i`; reads `gradient[i]` and `gradient[i + 1]` (unguarded), and
linearly interpolates each channel, rounding with `Math.round`. -/
def interpolateColor (gradient : List ℕ) (ratio : ℚ) : Option ℕ :=
  let n : ℤ := (gradient.length : ℤ) - 1
  let scaled : ℚ := ratio * (n : ℚ)
  let i : ℤ := ⌊scaled⌋
  let t : ℚ := scaled - (i : ℚ)
  match jsIndex gradient i, jsIndex gradient (i + 1) with
  | some c1, some c2 =>
    let (r1, g1, b1) := hexToRgb c1
    let (r2, g2, b2) := hexToRgb c2
    let r : ℚ := (r1 : ℚ) + ((r2 : ℚ) - (r1 : ℚ)) * t
    let g : ℚ := (g1 : ℚ) + ((g2 : ℚ) - (g1 : ℚ)) * t
    let b : ℚ := (b1 : ℚ) + ((b2 : ℚ) - (b1 : ℚ)) * t
    some (rgbToHex (jsRound r).toNat (jsRound g).toNat (jsRound b).toNat)
  | _, _ => none

/-! ### getVisibleCanvasWidth (GridCanvas.tsx line 185) -/

/-- GridCanvas.tsx line 185: `getVisibleCanvasWidth: () => canvasWidth * 0.4`
(the spec's `getVisibleRenderWidth`).  `900 * 0.4` is exactly `360` both in
rationals and in IEEE doubles. -/
def getVisibleCanvasWidth : ℚ := canvasWidth * 0.4

/-! ### Path simulation (GridCanvas.tsx lines 48–52 and 78–88) -/

/-- GridCanvas.tsx lines 48–52: one vertex of a path; `direction` records the
step taken to reach it (`0` at the origin vertex). -/
structure Point where
  x : ℚ
  y : ℚ
  direction : ℤ
deriving DecidableEq

/-- GridCanvas.tsx line 82: `Math.random() < 0.5 ? -1 : 1`, with `b` standing
for the outcome of the comparison `Math.random() < 0.5`. -/
def dirVal (b : Bool) : ℤ :=
  if b then -1 else 1

/-- GridCanvas.tsx lines 81–85, one iteration of the simulation loop: from
the last vertex `p`, step to
`{x: p.x + direction * stepSize, y: p.y + stepSize, direction}`. -/
def simStep (p : Point) (b : Bool) : Point :=
  ⟨p.x + (dirVal b : ℚ) * stepSize, p.y + stepSize, dirVal b⟩

/-- GridCanvas.tsx lines 79–86: the loop `for (row = 1; row <= numRows; ...)`
starting from vertex `p` at row `row`, pushing one `simStep` per remaining
row; `dirs` supplies the random draw used at each row. -/
def ballPathFrom (dirs : ℕ → Bool) : ℕ → Point → ℕ → List Point
  | _, p, 0 => [p]
  | row, p, n + 1 => p :: ballPathFrom dirs (row + 1) (simStep p (dirs (row + 1))) n

/-- GridCanvas.tsx lines 78–88, `simulateBall(startX)`: path starts at
`{x: startX, y: 0, direction: 0}` and runs the loop for `numRows` rows. -/
def simulateBall (dirs : ℕ → Bool) (startX : ℚ) : List Point :=
  ballPathFrom dirs 0 ⟨startX, 0, 0⟩ numRows

/-- GridCanvas.tsx lines 104–107: the random starting offset
`(Math.floor(Math.random() * (hi - lo + 1)) + lo) * stepSize` with
`[lo, hi] = startColRange` and `r` the `Math.random()` draw. -/
def startXFrom (r : ℚ) : ℚ :=
  ((⌊r * (startColRange.2 - startColRange.1 + 1)⌋ : ℚ) + startColRange.1) * stepSize

/-- GridCanvas.tsx line 111: `centerOffset = ((totalCols - visibleCols) / 2) * stepSize`. -/
def centerOffset : ℚ :=
  ((totalCols - visibleCols) / 2) * stepSize

/-- GridCanvas.tsx lines 112–118: per-vertex recentering map
`{x: p.x - centerOffset + canvasWidth / 2, y: p.y, direction: p.direction}`. -/
def translatePoint (p : Point) : Point :=
  ⟨p.x - centerOffset + canvasWidth / 2, p.y, p.direction⟩

/-- GridCanvas.tsx lines 103–118: the full generated batch of one
`regenerate()` call — `numBalls` simulated paths (ball `b` using the random
draws `rand b` for its start column and `dirs b` for its steps), each then
recentered vertex-wise by `translatePoint`. -/
def genBatch (rand : ℕ → ℚ) (dirs : ℕ → ℕ → Bool) : List (List Point) :=
  ((List.range numBalls).map fun b => simulateBall (dirs b) (startXFrom (rand b))).map
    fun path => path.map translatePoint

/-- GridCanvas.tsx lines 157–158: the gradient ratio of the segment drawn
between consecutive vertices `p1`, `p2`:
`((p1.y + p2.y) / 2) / canvasHeight`. -/
def segmentRatio (p1 p2 : Point) : ℚ :=
  ((p1.y + p2.y) / 2) / canvasHeight

/-! ### Reveal scheduling (GridCanvas.tsx lines 120–134)

`regenerate()` resets `visiblePaths` to `[]` and calls `setInterval` with a
callback closing over a fresh mutable `index` and the freshly generated
`paths`; the callback appends `paths[index]` while `index < paths.length`,
and otherwise calls `clearInterval` on its own handle and fires the
animation-end callback.  Nothing in `regenerate()` (or in the component's
effects) clears a previously created interval.  The model keeps, per created
interval, its closed-over batch and index, whether `clearInterval` has been
called on it (`live`), and whether its animation-end callback has run
(`endFired`); `visiblePaths` is the shared component state all callbacks
append to.  A tick of a cleared interval is a no-op (cleared timers no longer
fire). -/

/-- One `setInterval` registration made by `regenerate()`, with the state its
callback closes over. -/
structure IntervalState where
  batch : List (List Point)
  index : ℕ
  live : Bool
  endFired : Bool
deriving DecidableEq

/-- The component state touched by reveal scheduling: the `visiblePaths`
React state and every interval created so far. -/
structure AnimState where
  visiblePaths : List (List Point)
  intervals : List IntervalState
deriving DecidableEq

/-- State before any `regenerate()` call. -/
def emptyAnim : AnimState := ⟨[], []⟩

/-- GridCanvas.tsx lines 120–122: `regenerate()`'s scheduling effect —
`setVisiblePaths([])` and a new `setInterval` registration with `index = 0`
over the freshly generated `batch`.  No existing interval is cleared. -/
def regenerateM (batch : List (List Point)) (s : AnimState) : AnimState :=
  { visiblePaths := [], intervals := s.intervals ++ [⟨batch, 0, true, false⟩] }

/-- GridCanvas.tsx lines 122–134: one firing of the `k`-th interval's
callback.  While `index < paths.length` it appends `paths[index]` to
`visiblePaths` and increments its `index`; once the batch is exhausted it
clears itself and fires the animation-end callback. -/
def tickInterval (s : AnimState) (k : ℕ) : AnimState :=
  match s.intervals[k]? with
  | none => s
  | some t =>
    if t.live then
      if h : t.index < t.batch.length then
        { visiblePaths := s.visiblePaths ++ [t.batch.get ⟨t.index, h⟩],
          intervals := s.intervals.set k { t with index := t.index + 1 } }
      else
        { visiblePaths := s.visiblePaths,
          intervals := s.intervals.set k { t with live := false, endFired := true } }
    else s

/-- `n` consecutive firings of the `k`-th interval's callback. -/
def tickN (k : ℕ) : ℕ → AnimState → AnimState
  | 0, s => s
  | n + 1, s => tickInterval (tickN k n s) k

/-- The reveal process of a single generation: `regenerate()` from the idle
component followed by `n` ticks of the one interval it created. -/
def runReveal (batch : List (List Point)) (n : ℕ) : AnimState :=
  tickN 0 n (regenerateM batch emptyAnim)

/-- The overlapping-regeneration scenario: `regenerate()` from the idle
component, 3 ticks of the interval it created, then a second `regenerate()`
before the first generation's reveal has completed. -/
def doubleRegen (r1 : ℕ → ℚ) (d1 : ℕ → ℕ → Bool) (r2 : ℕ → ℚ)
    (d2 : ℕ → ℕ → Bool) : AnimState :=
  regenerateM (genBatch r2 d2) (tickN 0 3 (regenerateM (genBatch r1 d1) emptyAnim))

end FarcasterGrid

namespace FarcasterGrid

/-! ### Helper lemmas about the simulation loop -/

theorem ballPathFrom_length (dirs : ℕ → Bool) :
    ∀ (n row : ℕ) (p : Point), (ballPathFrom dirs row p n).length = n + 1
  | 0, _, _ => rfl
  | n + 1, row, p => by
    simp [ballPathFrom, ballPathFrom_length dirs n]

theorem ballPathFrom_head (dirs : ℕ → Bool) (n row : ℕ) (p : Point) :
    (ballPathFrom dirs row p n).head? = some p := by
  cases n <;> simp [ballPathFrom]

theorem ballPathFrom_y (dirs : ℕ → Bool) :
    ∀ (n row : ℕ) (p : Point) (j : ℕ), j ≤ n →
      ((ballPathFrom dirs row p n)[j]?).map Point.y = some (p.y + j * stepSize)
  | 0, _, p, 0, _ => by simp [ballPathFrom]
  | n + 1, row, p, 0, _ => by simp [ballPathFrom]
  | n + 1, row, p, j + 1, h => by
    have ih := ballPathFrom_y dirs n (row + 1) (simStep p (dirs (row + 1))) j
      (Nat.le_of_succ_le_succ h)
    simp only [ballPathFrom, List.getElem?_cons_succ]
    rw [ih]
    simp only [Option.map_some, Option.some_inj, simStep]
    push_cast
    ring

theorem ballPathFrom_chain {R : Point → Point → Prop}
    (hR : ∀ p b, R p (simStep p b)) (dirs : ℕ → Bool) :
    ∀ (n row : ℕ) (p : Point), List.Chain' R (ballPathFrom dirs row p n)
  | 0, _, _ => by simp [ballPathFrom]
  | n + 1, row, p => by
    rw [ballPathFrom, List.chain'_cons']
    refine ⟨?_, ballPathFrom_chain hR dirs n (row + 1) (simStep p (dirs (row + 1)))⟩
    intro q hq
    rw [ballPathFrom_head] at hq
    simp only [Option.mem_def, Option.some_inj] at hq
    subst hq
    exact hR p _

/-! ### Helper lemmas about reveal scheduling -/

theorem tickN_add (k m n : ℕ) (s : AnimState) :
    tickN k (m + n) s = tickN k m (tickN k n s) := by
  induction m with
  | zero => simp [tickN]
  | succ m ih =>
    rw [Nat.succ_add, tickN, ih, tickN]

theorem tickN_run (B : List (List Point)) (rest : List IntervalState)
    (V : List (List Point)) (i : ℕ) :
    ∀ n, i + n ≤ B.length →
      tickN 0 n ⟨V, ⟨B, i, true, false⟩ :: rest⟩
        = ⟨V ++ (B.drop i).take n, ⟨B, i + n, true, false⟩ :: rest⟩
  | 0, _ => by simp [tickN]
  | n + 1, h => by
    have hn : i + n ≤ B.length := by omega
    have hlt : i + n < B.length := by omega
    rw [tickN, tickN_run B rest V i n hn]
    simp only [tickInterval, List.getElem?_cons_zero, if_pos, List.set_cons_zero]
    rw [dif_pos hlt]
    simp only [AnimState.mk.injEq, List.append_assoc]
    constructor
    · rw [List.take_succ]
      congr 1
      rw [List.getElem?_drop]
      rw [List.getElem?_eq_getElem hlt]
      simp [List.get_eq_getElem]
    · rfl

theorem tick_finish (B : List (List Point)) (rest : List IntervalState)
    (V : List (List Point)) :
    tickInterval ⟨V, ⟨B, B.length, true, false⟩ :: rest⟩ 0
      = ⟨V, ⟨B, B.length, false, true⟩ :: rest⟩ := by
  simp [tickInterval]

theorem tick_dead (B : List (List Point)) (rest : List IntervalState)
    (V : List (List Point)) (i : ℕ) (e : Bool) (n : ℕ) :
    tickN 0 n ⟨V, ⟨B, i, false, e⟩ :: rest⟩ = ⟨V, ⟨B, i, false, e⟩ :: rest⟩ := by
  induction n with
  | zero => rfl
  | succ n ih => rw [tickN, ih]; simp [tickInterval]

theorem genBatch_length (rand : ℕ → ℚ) (dirs : ℕ → ℕ → Bool) :
    (genBatch rand dirs).length = numBalls := by
  simp [genBatch]

theorem runReveal_le (B : List (List Point)) (n : ℕ) (h : n ≤ B.length) :
    runReveal B n = ⟨B.take n, [⟨B, n, true, false⟩]⟩ := by
  rw [runReveal, regenerateM]
  have := tickN_run B [] [] 0 n (by omega)
  simpa [emptyAnim] using this

theorem runReveal_gt (B : List (List Point)) (n : ℕ) (h : B.length < n) :
    runReveal B n = ⟨B, [⟨B, B.length, false, true⟩]⟩ := by
  obtain ⟨m, rfl⟩ : ∃ m, n = m + (B.length + 1) := ⟨n - (B.length + 1), by omega⟩
  have h1 : tickN 0 (B.length + 1) (regenerateM B emptyAnim)
      = ⟨B, [⟨B, B.length, false, true⟩]⟩ := by
    rw [tickN]
    have h2 : tickN 0 B.length (regenerateM B emptyAnim)
        = ⟨B, [⟨B, B.length, true, false⟩]⟩ := by
      have := runReveal_le B B.length le_rfl
      rw [runReveal] at this
      simpa using this
    rw [h2, tick_finish]
  rw [runReveal, tickN_add, h1, tick_dead]

/-! ### Helper lemmas about in-range interpolation and segment heights -/

theorem jsIndex_eq_some (g : List ℕ) (i : ℤ) (h0 : 0 ≤ i)
    (h1 : i < (g.length : ℤ)) : ∃ c, jsIndex g i = some c := by
  rw [jsIndex, if_pos h0]
  have hlt : i.toNat < g.length := by omega
  exact ⟨g[i.toNat], List.getElem?_eq_getElem hlt⟩

theorem interpolateColor_isSome_of_ratio_lt_one (g : List ℕ)
    (hg : g.length = 4) (ratio : ℚ) (h0 : 0 ≤ ratio) (h1 : ratio < 1) :
    (interpolateColor g ratio).isSome = true := by
  rw [interpolateColor]
  simp only [hg]
  norm_num
  have hfl0 : (0 : ℤ) ≤ ⌊ratio * 3⌋ := Int.floor_nonneg.mpr (by positivity)
  have hr3 : ratio * 3 < (3 : ℚ) := by nlinarith
  have hfl3 : ⌊ratio * 3⌋ < 3 := Int.floor_lt.mpr (by exact_mod_cast hr3)
  obtain ⟨c1, hc1⟩ := jsIndex_eq_some g ⌊ratio * 3⌋ hfl0 (by rw [hg]; omega)
  obtain ⟨c2, hc2⟩ := jsIndex_eq_some g (⌊ratio * 3⌋ + 1) (by omega)
    (by rw [hg]; push_cast; omega)
  rw [hc1, hc2]
  rfl

theorem simulateBall_y_opt (dirs : ℕ → Bool) (startX : ℚ) (j : ℕ)
    (hj : j ≤ numRows) :
    ((simulateBall dirs startX)[j]?).map Point.y = some (j * stepSize) := by
  rw [simulateBall]
  rw [ballPathFrom_y dirs numRows 0 ⟨startX, 0, 0⟩ j hj]
  norm_num

/-- C2: the claim asserts `interpolateColor(g, 0.0) = g[0]` and
`interpolateColor(g, 1.0) = g[last]` for every non-empty gradient of valid
6-digit lowercase hex colors.  The first half holds on the two-color gradient
`["#000000", "#ffffff"]`, but at ratio `1.0` the code computes `i = n` and
reads `gradient[n + 1]`, one past the end, so evaluation aborts (`none` in the
embedding) instead of returning the last control color: the code contradicts
the spec's stated testable property. -/
theorem c2_interpolate_endpoint_eval :
    interpolateColor [0x000000, 0xffffff] 0 = some 0x000000 ∧
      interpolateColor [0x000000, 0xffffff] 1 = none := by
  constructor
  · norm_num [interpolateColor, jsIndex, hexToRgb, rgbToHex, jsRound]
  · norm_num [interpolateColor, jsIndex, hexToRgb, rgbToHex, jsRound]
    rfl

/-- C3: the claim asserts the interpolation index is clamped at ratio `1.0`
so that both control-color lookups stay inside the gradient and the function
does not throw.  On the actual `neon` gradient (4 control colors) at ratio
`1.0` the code computes `i = 3` and reads `gradient[4]`, which is out of
range: the evaluation aborts (`none`), there is no clamp in the code. -/
theorem c3_interpolate_ratio_one_out_of_range :
    interpolateColor neonColors 1 = none := by
  norm_num [interpolateColor, neonColors, jsIndex, hexToRgb, rgbToHex, jsRound]
  rfl

/-- C9: `getVisibleCanvasWidth` (the spec's `getVisibleRenderWidth`) returns
exactly `0.4` times the configured raster width `canvasWidth` — concretely
`360`.  It is a pure function of the configuration by construction (a plain
definition with no state). -/
theorem c9_getVisibleCanvasWidth_eq :
    getVisibleCanvasWidth = 0.4 * canvasWidth ∧ getVisibleCanvasWidth = 360 := by
  constructor
  · norm_num [getVisibleCanvasWidth, canvasWidth, mul_comm]
  · norm_num [getVisibleCanvasWidth, canvasWidth]

/-- C5: every path returned by `simulateBall` — for any starting `x` and any
values of the random source — has exactly `numRows + 1` vertices, its first
vertex has `y = 0`, its last vertex has `y = numRows * stepSize`, and every
consecutive pair of vertices has `y`-delta exactly `stepSize`. -/
theorem c5_simulated_path_vertical_structure (dirs : ℕ → Bool) (startX : ℚ) :
    (simulateBall dirs startX).length = numRows + 1 ∧
      ((simulateBall dirs startX).head?.map Point.y) = some 0 ∧
      ((simulateBall dirs startX).getLast?.map Point.y)
        = some ((numRows : ℚ) * stepSize) ∧
      List.Chain' (fun a b => b.y = a.y + stepSize) (simulateBall dirs startX) := by
  refine ⟨ballPathFrom_length dirs numRows 0 _, ?_, ?_, ?_⟩
  · rw [simulateBall, ballPathFrom_head]; rfl
  · rw [List.getLast?_eq_getElem?, simulateBall, ballPathFrom_length]
    have := ballPathFrom_y dirs numRows 0 ⟨startX, 0, 0⟩ numRows le_rfl
    simpa using this
  · exact ballPathFrom_chain (fun p b => by simp [simStep]) dirs numRows 0 _

/-- C6: in every path returned by `simulateBall`, every consecutive pair of
vertices has `x`-delta exactly `+stepSize` or `-stepSize`, equal to
`stepSize` times the `direction` stored on the second vertex of the pair; the
first vertex of a path stores `direction = 0`. -/
theorem c6_simulated_path_horizontal_steps (dirs : ℕ → Bool) (startX : ℚ) :
    ((simulateBall dirs startX).head?.map Point.direction) = some 0 ∧
      List.Chain'
        (fun a b => (b.x = a.x + stepSize ∨ b.x = a.x - stepSize) ∧
          b.x = a.x + (b.direction : ℚ) * stepSize)
        (simulateBall dirs startX) := by
  constructor
  · rw [simulateBall, ballPathFrom_head]; rfl
  · refine ballPathFrom_chain (fun p b => ⟨?_, rfl⟩) dirs numRows 0 _
    cases b
    · exact Or.inl (by norm_num [simStep, dirVal, stepSize])
    · exact Or.inr (by norm_num [simStep, dirVal, stepSize]; ring)

/-- C7: for every value `r` of the random source (`Math.random()` yields
values in `[0, 1)`), the starting offset `startXFrom r` equals `k * stepSize`
for some integer `k` in the inclusive range `[-totalCols/2, totalCols/2]`,
and conversely every integer `k` in that range is produced by some value of
the random source. -/
theorem c7_start_offset_range_and_onto (r : ℚ) (h0 : 0 ≤ r) (h1 : r < 1) :
    (∃ k : ℤ, startXFrom r = (k : ℚ) * stepSize ∧
        -(totalCols / 2) ≤ (k : ℚ) ∧ (k : ℚ) ≤ totalCols / 2) ∧
      ∀ k : ℤ, -(totalCols / 2) ≤ (k : ℚ) → (k : ℚ) ≤ totalCols / 2 →
        ∃ r2 : ℚ, 0 ≤ r2 ∧ r2 < 1 ∧ startXFrom r2 = (k : ℚ) * stepSize := by
  constructor
  · refine ⟨⌊r * 41⌋ - 20, ?_, ?_, ?_⟩
    · rw [startXFrom]
      norm_num [startColRange, totalCols, stepSize]
      ring
    · have hf : (0 : ℤ) ≤ ⌊r * 41⌋ := Int.floor_nonneg.mpr (by positivity)
      push_cast
      norm_num [totalCols]
      exact_mod_cast hf
    · have hr41 : r * 41 < (41 : ℚ) := by nlinarith
      have hf : ⌊r * 41⌋ < 41 := Int.floor_lt.mpr (by exact_mod_cast hr41)
      push_cast
      norm_num [totalCols]
      have : ⌊r * 41⌋ ≤ 40 := by omega
      exact_mod_cast this
  · intro k hk1 hk2
    have hk1' : (-20 : ℤ) ≤ k := by
      rw [totalCols] at hk1; norm_num at hk1; exact_mod_cast hk1
    have hk2' : k ≤ 20 := by
      rw [totalCols] at hk2; norm_num at hk2; exact_mod_cast hk2
    refine ⟨((k : ℚ) + 20) / 41, ?_, ?_, ?_⟩
    · have hcast : (-20 : ℚ) ≤ (k : ℚ) := by exact_mod_cast hk1'
      have : (0 : ℚ) ≤ (k : ℚ) + 20 := by linarith
      positivity
    · rw [div_lt_one (by norm_num)]
      have : (k : ℚ) ≤ 20 := by exact_mod_cast hk2'
      linarith
    · rw [startXFrom]
      norm_num [startColRange, totalCols, stepSize]

/-- C7 witness: the range-and-surjectivity property instantiated at the
concrete random draw `r = 1/2`. -/
theorem c7_start_offset_range_and_onto_witness :
    (0 : ℚ) ≤ 1 / 2 ∧ (1 / 2 : ℚ) < 1 ∧
      ((∃ k : ℤ, startXFrom (1 / 2) = (k : ℚ) * stepSize ∧
          -(totalCols / 2) ≤ (k : ℚ) ∧ (k : ℚ) ≤ totalCols / 2) ∧
        ∀ k : ℤ, -(totalCols / 2) ≤ (k : ℚ) → (k : ℚ) ≤ totalCols / 2 →
          ∃ r2 : ℚ, 0 ≤ r2 ∧ r2 < 1 ∧ startXFrom r2 = (k : ℚ) * stepSize) :=
  ⟨by norm_num, by norm_num,
    c7_start_offset_range_and_onto (1 / 2) (by norm_num) (by norm_num)⟩

/-- C8: the post-simulation recentering (`allPaths.map (path.map ...)`) maps
every vertex by `x ↦ x - centerOffset + canvasWidth / 2` (with
`centerOffset = ((totalCols - visibleCols)/2) * stepSize`), leaves `y` and
`direction` unchanged, and preserves the path count, every path's length, and
vertex order (the vertex at any position `(i, j)` is the image of the vertex
that was at `(i, j)`). -/
theorem c8_recentering_translation (paths : List (List Point)) (i j : ℕ)
    (pt : Point) (h : (paths[i]?.bind fun p => p[j]?) = some pt) :
    ((paths.map fun p => p.map translatePoint).length = paths.length) ∧
      ((paths.map fun p => p.map translatePoint)[i]?.map List.length
        = paths[i]?.map List.length) ∧
      ((paths.map fun p => p.map translatePoint)[i]?.bind fun q => q[j]?)
        = some ⟨pt.x - centerOffset + canvasWidth / 2, pt.y, pt.direction⟩ := by
  refine ⟨List.length_map _ _, ?_, ?_⟩
  · cases hp : paths[i]? with
    | none => simp [List.getElem?_map, hp]
    | some p => simp [List.getElem?_map, hp]
  · cases hp : paths[i]? with
    | none => rw [hp] at h; exact Option.noConfusion h
    | some p =>
      rw [hp] at h
      simp only [Option.some_bind] at h
      simp [List.getElem?_map, hp, h, translatePoint]

/-- C8 witness: the recentering property instantiated at the one-path batch
`[[⟨3, 7, 1⟩]]` and vertex position `(0, 0)`. -/
theorem c8_recentering_translation_witness :
    ((([[(⟨3, 7, 1⟩ : Point)]] : List (List Point))[0]?.bind fun p => p[0]?)
        = some ⟨3, 7, 1⟩) ∧
      ((([[(⟨3, 7, 1⟩ : Point)]] : List (List Point)).map
          fun p => p.map translatePoint).length
        = ([[(⟨3, 7, 1⟩ : Point)]] : List (List Point)).length) ∧
      ((([[(⟨3, 7, 1⟩ : Point)]] : List (List Point)).map
          fun p => p.map translatePoint)[0]?.map List.length
        = ([[(⟨3, 7, 1⟩ : Point)]] : List (List Point))[0]?.map List.length) ∧
      ((([[(⟨3, 7, 1⟩ : Point)]] : List (List Point)).map
          fun p => p.map translatePoint)[0]?.bind fun q => q[0]?)
        = some ⟨(3 : ℚ) - centerOffset + canvasWidth / 2, 7, 1⟩ :=
  ⟨by simp,
    c8_recentering_translation [[⟨3, 7, 1⟩]] 0 0 ⟨3, 7, 1⟩ (by simp)⟩

/-- C4: within one generation (a `regenerate()` from the idle component
followed by `n` ticks of the interval it created) the revealed set is always
the length-`min n numBalls` prefix of the generated batch — so each tick
below `numBalls` appends exactly one path in original batch order — its
length is non-decreasing in `n`, and on the tick after the batch is exhausted
(`numBalls + 1`) the revealed count equals `numBalls`, the interval has been
cleared (`live = false`) and the animation-end callback has fired
(`endFired = true`). -/
theorem c4_reveal_prefix_monotone_complete (rand : ℕ → ℚ)
    (dirs : ℕ → ℕ → Bool) (n : ℕ) :
    (runReveal (genBatch rand dirs) n).visiblePaths
        = (genBatch rand dirs).take (min n numBalls) ∧
      (runReveal (genBatch rand dirs) n).visiblePaths.length = min n numBalls ∧
      (runReveal (genBatch rand dirs) n).visiblePaths.length
        ≤ (runReveal (genBatch rand dirs) (n + 1)).visiblePaths.length ∧
      runReveal (genBatch rand dirs) (numBalls + 1)
        = ⟨genBatch rand dirs,
            [⟨genBatch rand dirs, numBalls, false, true⟩]⟩ := by
  have hB : (genBatch rand dirs).length = numBalls := genBatch_length rand dirs
  have hvis : ∀ m, (runReveal (genBatch rand dirs) m).visiblePaths
      = (genBatch rand dirs).take (min m numBalls) := by
    intro m
    by_cases hm : m ≤ numBalls
    · rw [runReveal_le _ _ (by omega)]
      simp [Nat.min_eq_left hm]
    · rw [runReveal_gt _ _ (by omega)]
      rw [Nat.min_eq_right (by omega), ← hB, List.take_length]
  have hlen : ∀ m, (runReveal (genBatch rand dirs) m).visiblePaths.length
      = min m numBalls := by
    intro m
    rw [hvis m, List.length_take, hB]
    omega
  refine ⟨hvis n, hlen n, ?_, ?_⟩
  · rw [hlen n, hlen (n + 1)]
    omega
  · rw [runReveal_gt _ _ (by omega), hB]

/-- C1: the claim asserts that a second `regenerate()` issued before the
first generation's reveal completes cancels the first repeating timer (at
most one timer ever live) and that the abandoned generation's animation-end
callback never fires.  The code never calls `clearInterval` on the previous
interval: after a second `regenerate()` (here: issued after 3 ticks of the
first, 100-path generation) BOTH intervals are still live, the very next
firing of the first interval appends a stale first-generation path to the new
generation's reveal state, and after the first interval exhausts its batch
(98 more firings) its animation-end callback DOES fire
(`endFired = [true, false]`). -/
theorem c1_second_regenerate_two_timers_stale_end (r1 : ℕ → ℚ)
    (d1 : ℕ → ℕ → Bool) (r2 : ℕ → ℚ) (d2 : ℕ → ℕ → Bool) :
    (doubleRegen r1 d1 r2 d2).intervals.map IntervalState.live = [true, true] ∧
      (doubleRegen r1 d1 r2 d2).visiblePaths = [] ∧
      (tickN 0 1 (doubleRegen r1 d1 r2 d2)).visiblePaths
        = ((genBatch r1 d1).drop 3).take 1 ∧
      (tickN 0 98 (doubleRegen r1 d1 r2 d2)).intervals.map
        IntervalState.endFired = [true, false] := by
  set s := doubleRegen r1 d1 r2 d2 with hsdef
  have hB1 : (genBatch r1 d1).length = numBalls := genBatch_length r1 d1
  have h3 : tickN 0 3 (regenerateM (genBatch r1 d1) emptyAnim)
      = ⟨(genBatch r1 d1).take 3, [⟨genBatch r1 d1, 3, true, false⟩]⟩ := by
    have := runReveal_le (genBatch r1 d1) 3 (by rw [hB1]; norm_num [numBalls])
    rw [runReveal] at this
    exact this
  have hs : s = ⟨[], [⟨genBatch r1 d1, 3, true, false⟩,
      ⟨genBatch r2 d2, 0, true, false⟩]⟩ := by
    rw [hsdef, doubleRegen, h3, regenerateM]
    rfl
  refine ⟨by rw [hs]; rfl, by rw [hs], ?_, ?_⟩
  · rw [hs]
    have := tickN_run (genBatch r1 d1) [⟨genBatch r2 d2, 0, true, false⟩] [] 3 1
      (by rw [hB1]; norm_num [numBalls])
    rw [this]
    simp
  · rw [hs]
    have h98 : (98 : ℕ) = 1 + 97 := by norm_num
    rw [h98, tickN_add]
    have h97 := tickN_run (genBatch r1 d1) [⟨genBatch r2 d2, 0, true, false⟩] [] 3 97
      (by rw [hB1]; norm_num [numBalls])
    rw [h97]
    have hidx : (3 : ℕ) + 97 = (genBatch r1 d1).length := by
      rw [hB1]; norm_num [numBalls]
    rw [hidx]
    have hfin := tick_finish (genBatch r1 d1) [⟨genBatch r2 d2, 0, true, false⟩]
      (((genBatch r1 d1).drop 3).take 97)
    simp only [List.nil_append, tickN]
    rw [hfin]
    rfl

/-- C10: under the configured constants (`numRows * stepSize = canvasHeight`),
for every path of any generated-and-recentered batch and every consecutive
vertex pair the renderer draws, the ratio `avgY / canvasHeight` passed to
`interpolateColor` lies in `[1/80, 79/80] ⊆ [0, 1)`, and on each of the three
actual 4-color gradients the unclamped `interpolateColor` succeeds (both
control-color reads stay in bounds): the out-of-range access at ratio `1.0`
is unreachable during actual rendering. -/
theorem c10_render_ratio_in_bounds (rand : ℕ → ℚ) (dirs : ℕ → ℕ → Bool) :
    (numRows : ℚ) * stepSize = canvasHeight ∧
      (genBatch rand dirs).Forall fun path =>
        List.Chain'
          (fun a b =>
            1 / 80 ≤ segmentRatio a b ∧ segmentRatio a b ≤ 79 / 80 ∧
              (interpolateColor neonColors (segmentRatio a b)).isSome = true ∧
              (interpolateColor sunsetColors (segmentRatio a b)).isSome = true ∧
              (interpolateColor cyberpunkColors (segmentRatio a b)).isSome = true)
          path := by
  refine ⟨by norm_num [numRows, stepSize, canvasHeight], ?_⟩
  rw [List.forall_iff_forall_mem]
  intro path hmem
  rw [genBatch] at hmem
  obtain ⟨orig, horig, rfl⟩ := List.mem_map.mp hmem
  obtain ⟨b, _, rfl⟩ := List.mem_map.mp horig
  rw [List.chain'_iff_get]
  intro i hi
  have hlen : (simulateBall (dirs b) (startXFrom (rand b))).length = numRows + 1 :=
    ballPathFrom_length _ numRows 0 _
  rw [List.length_map, hlen] at hi
  have hi39 : i ≤ 39 := by norm_num [numRows] at hi; omega
  have hib : i < (simulateBall (dirs b) (startXFrom (rand b))).length := by
    rw [hlen]; norm_num [numRows]; omega
  have hib1 : i + 1 < (simulateBall (dirs b) (startXFrom (rand b))).length := by
    rw [hlen]; norm_num [numRows]; omega
  have hyget : ∀ (j : ℕ) (hjL : j < (simulateBall (dirs b) (startXFrom (rand b))).length),
      ((simulateBall (dirs b) (startXFrom (rand b))).get ⟨j, hjL⟩).y
        = j * stepSize := by
    intro j hjL
    have h1 := simulateBall_y_opt (dirs b) (startXFrom (rand b)) j
      (by rw [hlen] at hjL; norm_num [numRows] at hjL ⊢; omega)
    rw [List.getElem?_eq_getElem hjL] at h1
    simp only [List.get_eq_getElem]
    simpa using h1
  simp only [List.get_eq_getElem, List.getElem_map]
  have hy := hyget i hib
  have hy1 := hyget (i + 1) hib1
  simp only [List.get_eq_getElem] at hy hy1
  have hq : segmentRatio
      (translatePoint ((simulateBall (dirs b) (startXFrom (rand b)))[i]))
      (translatePoint ((simulateBall (dirs b) (startXFrom (rand b)))[i + 1]))
      = (2 * (i : ℚ) + 1) / 80 := by
    rw [segmentRatio, translatePoint, translatePoint]
    simp only [hy, hy1]
    rw [stepSize, canvasHeight]
    push_cast
    ring
  rw [hq]
  have hcast0 : (0 : ℚ) ≤ (i : ℚ) := by positivity
  have hcast39 : (i : ℚ) ≤ 39 := by exact_mod_cast hi39
  refine ⟨by linarith, by linarith, ?_, ?_, ?_⟩ <;>
    exact interpolateColor_isSome_of_ratio_lt_one _ (by rfl) _
      (by linarith) (by linarith)

end FarcasterGrid
